import Mathlib

/-!
Verification of the 3twenty-wallet core against its specification.

The development shallowly embeds the wallet engine of the repository:
the vault codec (src/services/cryptoService.ts, encryptVault/decryptVault),
the transaction-history aggregator (fetchWithRetry/fetchTransactions),
the balance refresh loop (src/App.tsx, fetchBalances), the token import
flow (handleCheckToken/handleConfirmImportToken), and the swap pipeline
(getSwapQuote/checkAllowance/executeSwap).

JavaScript strings are modelled as lists of UTF-16 code units (natural
numbers).  All concrete characters used below are in the basic multilingual
plane, where one Lean character is exactly one UTF-16 code unit.
-/

set_option maxHeartbeats 1000000

namespace ThreeTwenty

/-- Code units of a Lean string literal (UTF-16 view for BMP characters). -/
def strCodes (s : String) : List Nat := s.data.map Char.toNat

/-! ## Base64 (btoa / atob)

btoa encodes a JS string whose code units are all below 256 and throws a
DOMException otherwise; atob decodes a base64 string and throws on invalid
input.  Throwing is modelled by Option.  61 is the code of the padding
character. -/

/-- Sextet-value to base64-alphabet character code. -/
def b64Char (n : Nat) : Nat :=
  if n < 26 then 65 + n
  else if n < 52 then 97 + (n - 26)
  else if n < 62 then 48 + (n - 52)
  else if n = 62 then 43 else 47

/-- Base64-alphabet character code back to its sextet value. -/
def b64CharDec (c : Nat) : Option Nat :=
  if 65 ≤ c ∧ c ≤ 90 then some (c - 65)
  else if 97 ≤ c ∧ c ≤ 122 then some (c - 97 + 26)
  else if 48 ≤ c ∧ c ≤ 57 then some (c - 48 + 52)
  else if c = 43 then some 62
  else if c = 47 then some 63
  else none

/-- Base64 encoding of a byte sequence. -/
def b64Encode : List Nat → List Nat
  | [] => []
  | [a] => [b64Char (a / 4), b64Char (a % 4 * 16), 61, 61]
  | [a, b] => [b64Char (a / 4), b64Char (a % 4 * 16 + b / 16), b64Char (b % 16 * 4), 61]
  | a :: b :: c :: rest =>
      b64Char (a / 4) :: b64Char (a % 4 * 16 + b / 16) ::
      b64Char (b % 16 * 4 + c / 64) :: b64Char (c % 64) :: b64Encode rest

/-- Base64 decoding; fails (like atob throwing) on malformed input. -/
def b64Decode : List Nat → Option (List Nat)
  | [] => some []
  | c1 :: c2 :: c3 :: c4 :: rest =>
      if c4 = 61 then
        if rest = [] then
          if c3 = 61 then do
            let s1 ← b64CharDec c1
            let s2 ← b64CharDec c2
            pure [s1 * 4 + s2 / 16]
          else do
            let s1 ← b64CharDec c1
            let s2 ← b64CharDec c2
            let s3 ← b64CharDec c3
            pure [s1 * 4 + s2 / 16, s2 % 16 * 16 + s3 / 4]
        else none
      else do
        let s1 ← b64CharDec c1
        let s2 ← b64CharDec c2
        let s3 ← b64CharDec c3
        let s4 ← b64CharDec c4
        let bs ← b64Decode rest
        pure ((s1 * 4 + s2 / 16) :: (s2 % 16 * 16 + s3 / 4) :: (s3 % 4 * 64 + s4) :: bs)
  | _ => none

/-- btoa: defined only when every code unit is below 256. -/
def btoaJS (s : List Nat) : Option (List Nat) :=
  if s.all (fun c => c < 256) then some (b64Encode s) else none

/-- atob. -/
def atobJS (s : List Nat) : Option (List Nat) := b64Decode s

/-! ## The XOR keystream of encryptVault / decryptVault

The source computes, for position i,
  charCode = text.charCodeAt(i) XOR password.charCodeAt(i % password.length).
For the empty password, i % 0 is NaN, charCodeAt(NaN) is NaN, and the
bitwise XOR coerces NaN to 0; so the keystream unit is 0 in that case.
String.fromCharCode truncates to 16 bits, which is the identity here since
XOR of two UTF-16 code units stays below 2^16. -/

/-- Keystream unit drawn from the password at position i. -/
def pwdCode (pwd : List Nat) (i : Nat) : Nat :=
  if pwd = [] then 0 else pwd.getD (i % pwd.length) 0

/-- XOR of a code-unit sequence against the repeated password, starting at
    position i. -/
def xorKS (pwd : List Nat) : Nat → List Nat → List Nat
  | _, [] => []
  | i, c :: cs => (c ^^^ pwdCode pwd i) :: xorKS pwd (i + 1) cs

/-! ## The serialized vault bundle

Shapes follow the runtime objects of src/App.tsx: saveVault builds
the object with keys wallets, customTokens, customNetworks; wallet objects
are created with keys id, name, address, privateKey and (when imported or
created from a phrase) mnemonic; custom tokens are created by
handleCheckToken with keys address, symbol, name, decimals, balance,
logoUrl, chainId; custom networks by handleAddNetwork with keys name,
rpcUrl, chainId, symbol, explorerUrl.  Optional keys are absent when the
Option is none, as JSON.stringify omits absent properties. -/

structure JWallet where
  id : List Nat
  name : List Nat
  address : List Nat
  privateKey : List Nat
  mnemonic : Option (List Nat)
deriving DecidableEq

structure JToken where
  address : List Nat
  symbol : List Nat
  name : List Nat
  decimals : Nat
  balance : List Nat
  logoUrl : Option (List Nat)
  isNative : Option Bool
  chainId : Option Nat
deriving DecidableEq

structure JNetwork where
  name : List Nat
  rpcUrl : List Nat
  chainId : Nat
  symbol : List Nat
  explorerUrl : List Nat
  routerAddress : Option (List Nat)
  apiBaseUrl : Option (List Nat)
deriving DecidableEq

structure VaultData where
  wallets : List JWallet
  customTokens : List JToken
  customNetworks : List JNetwork
deriving DecidableEq

/-! ## JSON.stringify for the bundle

Standard JSON string escaping; keys in object-literal insertion order.
ES2019 well-formed stringification of lone surrogates is not modelled
(the strings handled here contain none). -/

/-- Lowercase hexadecimal digit, as used by the \u00XX escapes. -/
def hexDigitCode (n : Nat) : Nat := if n < 10 then 48 + n else 87 + n

/-- JSON escape of a single code unit. -/
def jsonEscChar (c : Nat) : List Nat :=
  if c = 34 then [92, 34]
  else if c = 92 then [92, 92]
  else if c = 8 then [92, 98]
  else if c = 9 then [92, 116]
  else if c = 10 then [92, 110]
  else if c = 12 then [92, 102]
  else if c = 13 then [92, 114]
  else if c < 32 then [92, 117, 48, 48, hexDigitCode (c / 16), hexDigitCode (c % 16)]
  else [c]

/-- JSON string literal (34 is the double quote). -/
def jsonStr (s : List Nat) : List Nat := 34 :: (s.map jsonEscChar).flatten ++ [34]

/-- JSON rendering of a natural number. -/
def jsonNum (n : Nat) : List Nat := (Nat.toDigits 10 n).map Char.toNat

/-- JSON rendering of a boolean. -/
def jsonBool (b : Bool) : List Nat :=
  if b then strCodes ("true") else strCodes ("false")

/-- A key-value member of a JSON object (58 is the colon). -/
def jfield (k : String) (v : List Nat) : List Nat := jsonStr (strCodes k) ++ 58 :: v

/-- JSON object from its members (123/125 braces, 44 comma). -/
def jobj (fs : List (List Nat)) : List Nat := 123 :: List.intercalate [44] fs ++ [125]

/-- JSON array from its elements (91/93 brackets). -/
def jarr (es : List (List Nat)) : List Nat := 91 :: List.intercalate [44] es ++ [93]

/-- Optional member: omitted when absent. -/
def optField (k : String) (v : Option (List Nat)) : List (List Nat) :=
  match v with
  | none => []
  | some x => [jfield k x]

def stringifyWallet (w : JWallet) : List Nat :=
  jobj ([jfield ("id") (jsonStr w.id), jfield ("name") (jsonStr w.name),
         jfield ("address") (jsonStr w.address), jfield ("privateKey") (jsonStr w.privateKey)]
        ++ optField ("mnemonic") (w.mnemonic.map jsonStr))

def stringifyToken (t : JToken) : List Nat :=
  jobj ([jfield ("address") (jsonStr t.address), jfield ("symbol") (jsonStr t.symbol),
         jfield ("name") (jsonStr t.name), jfield ("decimals") (jsonNum t.decimals),
         jfield ("balance") (jsonStr t.balance)]
        ++ optField ("logoUrl") (t.logoUrl.map jsonStr)
        ++ optField ("isNative") (t.isNative.map jsonBool)
        ++ optField ("chainId") (t.chainId.map jsonNum))

def stringifyNetwork (n : JNetwork) : List Nat :=
  jobj ([jfield ("name") (jsonStr n.name), jfield ("rpcUrl") (jsonStr n.rpcUrl),
         jfield ("chainId") (jsonNum n.chainId), jfield ("symbol") (jsonStr n.symbol),
         jfield ("explorerUrl") (jsonStr n.explorerUrl)]
        ++ optField ("routerAddress") (n.routerAddress.map jsonStr)
        ++ optField ("apiBaseUrl") (n.apiBaseUrl.map jsonStr))

/-- JSON.stringify of the vault bundle as built by saveVault. -/
def stringifyVault (v : VaultData) : List Nat :=
  jobj [jfield ("wallets") (jarr (v.wallets.map stringifyWallet)),
        jfield ("customTokens") (jarr (v.customTokens.map stringifyToken)),
        jfield ("customNetworks") (jarr (v.customNetworks.map stringifyNetwork))]

/-! ## encryptVault / decryptVault

decryptVault is parameterized by the JSON.parse step: parseJson models
JSON.parse followed by use of the value as a bundle, returning none when
parsing throws.  Both generic failures of the source (atob throwing,
JSON.parse throwing) collapse to the single error string, exactly as the
try/catch in the source does. -/

/-- encryptVault: stringify, XOR against the repeated password, btoa.
    none models btoa throwing on a code unit above 255. -/
def encryptVault (data : VaultData) (password : List Nat) : Option (List Nat) :=
  btoaJS (xorKS password 0 (stringifyVault data))

/-- The single generic decryption failure message of the source. -/
def vaultErr : String := "Invalid password or corrupted data"

/-- decryptVault: atob, XOR against the repeated password, JSON.parse;
    every failure is caught and rethrown as the generic error. -/
def decryptVault (parseJson : List Nat → Option VaultData)
    (encryptedData : List Nat) (password : List Nat) : Except String VaultData :=
  match atobJS encryptedData with
  | none => Except.error vaultErr
  | some decoded =>
    match parseJson (xorKS password 0 decoded) with
    | none => Except.error vaultErr
    | some v => Except.ok v

/-- The empty bundle: no wallets, no custom tokens, no custom networks. -/
def vaultEmpty : VaultData := ⟨[], [], []⟩

/-- A wallet whose display name contains the euro sign (code unit 0x20AC). -/
def walletEuro : JWallet :=
  { id := strCodes ("1"), name := strCodes ("€"), address := strCodes ("0xabc"),
    privateKey := strCodes ("0x01"), mnemonic := none }

/-- A bundle whose JSON serialization contains a code unit above 255. -/
def vaultEuro : VaultData := ⟨[walletEuro], [], []⟩

/-- A concrete model of JSON.parse adequate for the empty bundle: it
    recognizes exactly the serialization of the empty bundle. -/
def parseEmptyVault (s : List Nat) : Option VaultData :=
  if s = stringifyVault vaultEmpty then some vaultEmpty else none

/-! ## Vault codec lemmas -/

theorem b64Char_ne_pad (n : Nat) : b64Char n ≠ 61 := by
  unfold b64Char
  split_ifs <;> omega

theorem mulAdd_div (k q r : Nat) (hk : 0 < k) (h : r < k) : (q * k + r) / k = q := by
  rw [Nat.mul_comm, Nat.mul_add_div hk, Nat.div_eq_of_lt h, Nat.add_zero]

theorem mulAdd_mod (k q r : Nat) (h : r < k) : (q * k + r) % k = r := by
  rw [Nat.mul_comm, Nat.mul_add_mod, Nat.mod_eq_of_lt h]

theorem b64CharDec_b64Char : ∀ v, v < 64 → b64CharDec (b64Char v) = some v := by decide

theorem b64_roundtrip : ∀ (bs : List Nat), (∀ x ∈ bs, x < 256) →
    b64Decode (b64Encode bs) = some bs
  | [], _ => rfl
  | [a], h => by
      have ha : a < 256 := h a (by simp)
      have h1 : a / 4 < 64 := by omega
      have h2 : a % 4 * 16 < 64 := by omega
      simp only [b64Encode, b64Decode, reduceIte,
        b64CharDec_b64Char _ h1, b64CharDec_b64Char _ h2, Option.bind_eq_bind, Option.pure_def,
        Option.some_bind, Option.some.injEq, List.cons.injEq, and_true]
      rw [Nat.mul_div_cancel _ (by norm_num : (0 : Nat) < 16)]
      omega
  | [a, b], h => by
      have ha : a < 256 := h a (by simp)
      have hb : b < 256 := h b (by simp)
      have h1 : a / 4 < 64 := by omega
      have h2 : a % 4 * 16 + b / 16 < 64 := by omega
      have h3 : b % 16 * 4 < 64 := by omega
      simp only [b64Encode, b64Decode, reduceIte, if_neg (b64Char_ne_pad (b % 16 * 4)),
        b64CharDec_b64Char _ h1, b64CharDec_b64Char _ h2, b64CharDec_b64Char _ h3,
        Option.bind_eq_bind, Option.pure_def, Option.some_bind, Option.some.injEq, List.cons.injEq, and_true]
      rw [mulAdd_div 16 (a % 4) (b / 16) (by norm_num) (by omega),
        mulAdd_mod 16 (a % 4) (b / 16) (by omega),
        Nat.mul_div_cancel _ (by norm_num : (0 : Nat) < 4)]
      omega
  | a :: b :: c :: d :: rest, h => by
      have ih := b64_roundtrip (d :: rest) (fun x hx => h x (by simp at hx ⊢; tauto))
      have ha : a < 256 := h a (by simp)
      have hb : b < 256 := h b (by simp)
      have hc : c < 256 := h c (by simp)
      have h1 : a / 4 < 64 := by omega
      have h2 : a % 4 * 16 + b / 16 < 64 := by omega
      have h3 : b % 16 * 4 + c / 64 < 64 := by omega
      have h4 : c % 64 < 64 := by omega
      have hsplit : b64Encode (a :: b :: c :: d :: rest) =
          b64Char (a / 4) :: b64Char (a % 4 * 16 + b / 16) ::
          b64Char (b % 16 * 4 + c / 64) :: b64Char (c % 64) :: b64Encode (d :: rest) := rfl
      rw [hsplit]
      simp only [b64Decode, reduceIte, if_neg (b64Char_ne_pad (c % 64)),
        b64CharDec_b64Char _ h1, b64CharDec_b64Char _ h2, b64CharDec_b64Char _ h3,
        b64CharDec_b64Char _ h4, Option.bind_eq_bind, Option.pure_def, Option.some_bind, ih,
        Option.some.injEq, List.cons.injEq, and_true]
      rw [mulAdd_div 16 (a % 4) (b / 16) (by norm_num) (by omega),
        mulAdd_mod 16 (a % 4) (b / 16) (by omega),
        mulAdd_div 4 (b % 16) (c / 64) (by norm_num) (by omega),
        mulAdd_mod 4 (b % 16) (c / 64) (by omega)]
      omega
  | [a, b, c], h => by
      have ha : a < 256 := h a (by simp)
      have hb : b < 256 := h b (by simp)
      have hc : c < 256 := h c (by simp)
      have h1 : a / 4 < 64 := by omega
      have h2 : a % 4 * 16 + b / 16 < 64 := by omega
      have h3 : b % 16 * 4 + c / 64 < 64 := by omega
      have h4 : c % 64 < 64 := by omega
      simp only [b64Encode, b64Decode, reduceIte, if_neg (b64Char_ne_pad (c % 64)),
        b64CharDec_b64Char _ h1, b64CharDec_b64Char _ h2, b64CharDec_b64Char _ h3,
        b64CharDec_b64Char _ h4, Option.bind_eq_bind, Option.pure_def, Option.some_bind,
        Option.some.injEq, List.cons.injEq, and_true]
      rw [mulAdd_div 16 (a % 4) (b / 16) (by norm_num) (by omega),
        mulAdd_mod 16 (a % 4) (b / 16) (by omega),
        mulAdd_div 4 (b % 16) (c / 64) (by norm_num) (by omega),
        mulAdd_mod 4 (b % 16) (c / 64) (by omega)]
      omega

theorem pwdCode_lt (pwd : List Nat) (i : Nat) (h : ∀ c ∈ pwd, c < 256) :
    pwdCode pwd i < 256 := by
  unfold pwdCode
  split
  · omega
  · rcases Nat.lt_or_ge (i % pwd.length) pwd.length with hlt | hge
    · rw [List.getD_eq_getElem _ _ hlt]
      exact h _ (List.getElem_mem _)
    · rw [List.getD_eq_default _ _ hge]
      omega

theorem xorKS_lt (pwd : List Nat) (hp : ∀ c ∈ pwd, c < 256) :
    ∀ (i : Nat) (s : List Nat), (∀ c ∈ s, c < 256) → ∀ c ∈ xorKS pwd i s, c < 256
  | _, [], _ => by simp [xorKS]
  | i, c :: cs, hs => by
      simp only [xorKS, List.mem_cons]
      rintro x (rfl | hx)
      · have h1 : c < 2 ^ 8 := hs c (by simp)
        have h2 : pwdCode pwd i < 2 ^ 8 := pwdCode_lt pwd i hp
        exact Nat.xor_lt_two_pow h1 h2
      · exact xorKS_lt pwd hp (i + 1) cs (fun y hy => hs y (by simp [hy])) x hx

theorem xorKS_xorKS (pwd : List Nat) : ∀ (i : Nat) (s : List Nat),
    xorKS pwd i (xorKS pwd i s) = s
  | _, [] => rfl
  | i, c :: cs => by
      simp only [xorKS, List.cons.injEq]
      exact ⟨by rw [Nat.xor_assoc, Nat.xor_self, Nat.xor_zero], xorKS_xorKS pwd (i + 1) cs⟩

theorem xorKS_nil : ∀ (i : Nat) (s : List Nat), xorKS [] i s = s
  | _, [] => rfl
  | i, c :: cs => by simp [xorKS, pwdCode, xorKS_nil (i + 1) cs]

/-! ## Claim C1: vault round-trip -/

/-- C1, counterexample.  The claim quantifies over every non-empty password,
    but for the one-character password made of the euro sign (code unit
    0x20AC) the XOR turns the first serialized byte into a value above 255,
    so btoa throws inside encryptVault and the round-trip cannot return the
    bundle. -/
theorem c1_counterexample :
    strCodes ("€") ≠ ([] : List Nat) ∧
    encryptVault vaultEmpty (strCodes ("€")) = none := by
  constructor
  · decide
  · rfl

/-- C1, amended.  For every bundle whose JSON serialization round-trips
    through the given parse function and consists of code units below 256,
    and every password of code units below 256, decryptVault of encryptVault
    under the same password succeeds and returns the bundle. -/
theorem c1_vault_roundtrip (parseJson : List Nat → Option VaultData) (B : VaultData)
    (P : List Nat) (_hP : P ≠ []) (hPlat : ∀ c ∈ P, c < 256)
    (hBlat : ∀ c ∈ stringifyVault B, c < 256)
    (hparse : parseJson (stringifyVault B) = some B) :
    ∃ blob, encryptVault B P = some blob ∧
      decryptVault parseJson blob P = Except.ok B := by
  have hx : ∀ c ∈ xorKS P 0 (stringifyVault B), c < 256 :=
    xorKS_lt P hPlat 0 _ hBlat
  have hall : ((xorKS P 0 (stringifyVault B)).all fun c => c < 256) = true := by
    simp only [List.all_eq_true, decide_eq_true_eq]
    exact hx
  refine ⟨b64Encode (xorKS P 0 (stringifyVault B)), ?_, ?_⟩
  · unfold encryptVault btoaJS
    rw [if_pos hall]
  · unfold decryptVault atobJS
    rw [b64_roundtrip _ hx]
    simp only [xorKS_xorKS, hparse]

/-- C1, witness: the empty bundle with the password pw round-trips. -/
theorem c1_witness :
    (strCodes ("pw") ≠ ([] : List Nat)) ∧
    ∃ blob, encryptVault vaultEmpty (strCodes ("pw")) = some blob ∧
      decryptVault parseEmptyVault blob (strCodes ("pw")) = Except.ok vaultEmpty :=
  ⟨by decide, c1_vault_roundtrip parseEmptyVault vaultEmpty (strCodes ("pw"))
    (by decide) (by decide) (by decide) (by decide)⟩

/-! ## Claim C2: wrong password fails with the generic error -/

/-- C2, counterexample.  The passwords aa and a are distinct, yet the
    repeated keystream of a coincides with that of aa, so decryptVault
    under the wrong password succeeds and returns the bundle instead of
    failing. -/
theorem c2_counterexample :
    strCodes ("aa") ≠ strCodes ("a") ∧
    (encryptVault vaultEmpty (strCodes ("aa"))).map
        (fun blob => decryptVault parseEmptyVault blob (strCodes ("a")))
      = some (Except.ok vaultEmpty) := by
  constructor
  · decide
  · rfl

/-- C2, amended.  decryptVault does not always fail under a wrong password,
    but whenever it does fail, the failure is the single generic error
    Invalid password or corrupted data, never anything more specific. -/
theorem c2_decrypt_error_generic (parseJson : List Nat → Option VaultData)
    (blob P : List Nat) (e : String)
    (h : decryptVault parseJson blob P = Except.error e) : e = vaultErr := by
  unfold decryptVault at h
  split at h
  · injection h with h'
    exact h'.symm
  · split at h
    · injection h with h'
      exact h'.symm
    · exact absurd h (by simp)

/-- C2, witness: a malformed blob fails, and the error is the generic one. -/
theorem c2_witness :
    (decryptVault parseEmptyVault [33] (strCodes ("a")) = Except.error vaultErr) ∧
    vaultErr = vaultErr :=
  ⟨rfl, c2_decrypt_error_generic parseEmptyVault [33] (strCodes ("a")) vaultErr rfl⟩

/-! ## Claim C10: empty password degenerates to plain base64 -/

/-- C10, counterexample.  The claim quantifies over every bundle, but for a
    bundle whose serialization contains the euro sign (code unit 8364) btoa
    throws, so encryptVault with the empty password returns nothing rather
    than the base64 encoding. -/
theorem c10_counterexample :
    encryptVault vaultEuro [] = none ∧ 8364 ∈ stringifyVault vaultEuro := by
  constructor
  · rfl
  · decide

/-- C10, amended.  For every bundle whose JSON serialization consists of
    code units below 256, encryptVault under the empty password is exactly
    the base64 encoding of the serialization: the keystream degenerates to
    zero because charCodeAt on the empty password yields NaN and XOR
    coerces NaN to 0. -/
theorem c10_empty_password_base64 (B : VaultData)
    (hBlat : ∀ c ∈ stringifyVault B, c < 256) :
    encryptVault B [] = some (b64Encode (stringifyVault B)) := by
  unfold encryptVault btoaJS
  rw [xorKS_nil]
  rw [if_pos (by simp only [List.all_eq_true, decide_eq_true_eq]; exact hBlat)]

/-- C10, witness: the empty bundle under the empty password. -/
theorem c10_witness :
    (∀ c ∈ stringifyVault vaultEmpty, c < 256) ∧
    encryptVault vaultEmpty [] = some (b64Encode (stringifyVault vaultEmpty)) :=
  ⟨by decide, c10_empty_password_base64 vaultEmpty (by decide)⟩

/-! ## Transaction history: data model

A Transaction record as mapped by fetchTransactions.  An absent
tokenSymbol is modelled as the empty string (both are falsy, and the dedup
key falls back to the word native for both). -/

structure Tx where
  hash : String
  sender : String
  receiver : String
  value : String
  timeStamp : Nat
  isError : String
  gasUsed : String
  tokenSymbol : String
  tokenDecimal : Nat
deriving DecidableEq

/-- Dedup key of the merge step: item.hash + (item.tokenSymbol or native). -/
def keyOf (t : Tx) : String :=
  t.hash ++ (if t.tokenSymbol = "" then ("native") else t.tokenSymbol)

/-! ## JS Map semantics

new Map(pairs) inserts the pairs left to right; inserting an existing key
replaces its value in place (keeping the key position), a new key is
appended.  values() then lists values in key-insertion order. -/

section JSMap

variable {K V : Type} [DecidableEq K]

/-- One Map.prototype.set call. -/
def jsSet (m : List (K × V)) (k : K) (v : V) : List (K × V) :=
  if m.any (fun e => e.1 = k) then m.map (fun e => if e.1 = k then (k, v) else e)
  else m ++ [(k, v)]

/-- Folding Map.prototype.set over a pair list, from a given map state. -/
def jsMapFrom (m : List (K × V)) (l : List (K × V)) : List (K × V) :=
  l.foldl (fun acc e => jsSet acc e.1 e.2) m

/-- new Map(l). -/
def jsMapOf (l : List (K × V)) : List (K × V) := jsMapFrom [] l

/-- Value of the last entry carrying key k, with default d. -/
def lastVF (k : K) : V → List (K × V) → V
  | d, [] => d
  | d, e :: ts => if e.1 = k then lastVF k e.2 ts else lastVF k d ts

/-- For each key, in order of first occurrence, the value of its last
    occurrence: the specification-level reading of the Map-based dedup. -/
def specDedup : List (K × V) → List (K × V)
  | [] => []
  | e :: ts => (e.1, lastVF e.1 e.2 ts) :: specDedup (ts.filter (fun u => u.1 ≠ e.1))
termination_by l => l.length
decreasing_by
  simp only [List.length_cons]
  exact Nat.lt_succ_of_le (List.length_filter_le _ _)

/-- Keys in seen are dropped; the first occurrence of every other key is
    kept in place. -/
def firstOccsP (seen : List K) : List (K × V) → List (K × V)
  | [] => []
  | e :: ts => if e.1 ∈ seen then firstOccsP seen ts else e :: firstOccsP (e.1 :: seen) ts

/-- Closed form of the Map-based dedup: the first occurrence of each key,
    carrying the value of that key's last occurrence. -/
def specDedupC (l : List (K × V)) : List (K × V) :=
  (firstOccsP [] l).map (fun e => (e.1, lastVF e.1 e.2 l))

theorem map_if_none (m : List (K × V)) (k : K) (v' : V) (h : ∀ e ∈ m, e.1 ≠ k) :
    m.map (fun e => if e.1 = k then (k, v') else e) = m := by
  induction m with
  | nil => rfl
  | cons e ts ih =>
      simp only [List.map_cons, if_neg (h e (by simp)), List.cons.injEq, true_and]
      exact ih (fun u hu => h u (by simp [hu]))

theorem jsMapFrom_split (k : K) :
    ∀ (rest m₁ m₂ : List (K × V)) (v : V),
    (∀ e ∈ m₁, e.1 ≠ k) → (∀ e ∈ m₂, e.1 ≠ k) →
    jsMapFrom (m₁ ++ (k, v) :: m₂) rest =
      (jsMapFrom (m₁ ++ m₂) (rest.filter (fun e => e.1 ≠ k))).take m₁.length
        ++ (k, lastVF k v rest)
        :: (jsMapFrom (m₁ ++ m₂) (rest.filter (fun e => e.1 ≠ k))).drop m₁.length
  | [], m₁, m₂, v, _, _ => by
      show m₁ ++ (k, v) :: m₂
        = (m₁ ++ m₂).take m₁.length ++ (k, lastVF k v []) :: (m₁ ++ m₂).drop m₁.length
      rw [List.take_left, List.drop_left]
      rfl
  | (k', v') :: rs, m₁, m₂, v, h₁, h₂ => by
      have hstep : ∀ (m l : List (K × V)),
          jsMapFrom m ((k', v') :: l) = jsMapFrom (jsSet m k' v') l := fun _ _ => rfl
      by_cases hk : k' = k
      · subst hk
        have hany : (m₁ ++ (k', v) :: m₂).any (fun e => e.1 = k') = true := by
          simp only [List.any_eq_true, decide_eq_true_eq]
          exact ⟨(k', v), by simp, rfl⟩
        have hset : jsSet (m₁ ++ (k', v) :: m₂) k' v' = m₁ ++ (k', v') :: m₂ := by
          unfold jsSet
          rw [if_pos hany, List.map_append, List.map_cons, if_pos rfl,
            map_if_none m₁ k' v' h₁, map_if_none m₂ k' v' h₂]
        rw [hstep, hset, jsMapFrom_split k' rs m₁ m₂ v' h₁ h₂,
          List.filter_cons_of_neg (by simp), lastVF, if_pos rfl]
      · have hne : ((k', v') : K × V).1 ≠ k := hk
        by_cases hmem : (m₁ ++ m₂).any (fun e => e.1 = k') = true
        · have hany : (m₁ ++ (k, v) :: m₂).any (fun e => e.1 = k') = true := by
            simp only [List.any_eq_true, decide_eq_true_eq] at hmem ⊢
            obtain ⟨e, he, hek⟩ := hmem
            refine ⟨e, ?_, hek⟩
            simp only [List.mem_append, List.mem_cons] at he ⊢
            tauto
          have hset : jsSet (m₁ ++ (k, v) :: m₂) k' v'
              = m₁.map (fun e => if e.1 = k' then (k', v') else e) ++ (k, v)
                :: m₂.map (fun e => if e.1 = k' then (k', v') else e) := by
            unfold jsSet
            rw [if_pos hany, List.map_append, List.map_cons,
              if_neg (fun hc => hk (by simpa using hc.symm))]
          have hset' : jsSet (m₁ ++ m₂) k' v'
              = m₁.map (fun e => if e.1 = k' then (k', v') else e)
                ++ m₂.map (fun e => if e.1 = k' then (k', v') else e) := by
            unfold jsSet
            rw [if_pos hmem, List.map_append]
          have hm₁ : ∀ e ∈ m₁.map (fun e => if e.1 = k' then (k', v') else e), e.1 ≠ k := by
            intro e he
            obtain ⟨u, hu, rfl⟩ := List.mem_map.mp he
            by_cases hu' : u.1 = k'
            · simpa [hu'] using hk
            · simpa [hu'] using h₁ u hu
          have hm₂ : ∀ e ∈ m₂.map (fun e => if e.1 = k' then (k', v') else e), e.1 ≠ k := by
            intro e he
            obtain ⟨u, hu, rfl⟩ := List.mem_map.mp he
            by_cases hu' : u.1 = k'
            · simpa [hu'] using hk
            · simpa [hu'] using h₂ u hu
          rw [hstep, hset, jsMapFrom_split k rs _ _ v hm₁ hm₂,
            List.filter_cons_of_pos (by simp [hk]), hstep, hset', List.length_map,
            lastVF, if_neg hne]
        · have hany : ¬ ((m₁ ++ (k, v) :: m₂).any (fun e => e.1 = k') = true) := by
            intro hc
            apply hmem
            simp only [List.any_eq_true, decide_eq_true_eq] at hc ⊢
            obtain ⟨e, he, hek⟩ := hc
            simp only [List.mem_append, List.mem_cons] at he
            rcases he with h | h | h
            · exact ⟨e, List.mem_append.mpr (Or.inl h), hek⟩
            · exact absurd (h ▸ hek) (fun hh => hk hh.symm)
            · exact ⟨e, List.mem_append.mpr (Or.inr h), hek⟩
          have hset : jsSet (m₁ ++ (k, v) :: m₂) k' v'
              = m₁ ++ (k, v) :: (m₂ ++ [(k', v')]) := by
            unfold jsSet
            rw [if_neg hany, List.append_assoc, List.cons_append]
          have hset' : jsSet (m₁ ++ m₂) k' v' = m₁ ++ (m₂ ++ [(k', v')]) := by
            unfold jsSet
            rw [if_neg hmem, List.append_assoc]
          have hm₂ : ∀ e ∈ m₂ ++ [(k', v')], e.1 ≠ k := by
            intro e he
            rcases List.mem_append.mp he with h | h
            · exact h₂ e h
            · simp only [List.mem_singleton] at h
              exact h ▸ hne
          rw [hstep, hset, jsMapFrom_split k rs m₁ _ v h₁ hm₂,
            List.filter_cons_of_pos (by simp [hk]), hstep, hset',
            lastVF, if_neg hne]

theorem jsMapOf_eq_specDedup : ∀ (l : List (K × V)), jsMapOf l = specDedup l
  | [] => by simp [jsMapOf, jsMapFrom, specDedup]
  | (k, v) :: ts => by
      have key := jsMapFrom_split k ts [] [] v (by simp) (by simp)
      have ih := jsMapOf_eq_specDedup (ts.filter (fun u => u.1 ≠ k))
      have h0 : jsMapOf ((k, v) :: ts) = jsMapFrom ([] ++ (k, v) :: []) ts := rfl
      rw [h0, key]
      simp only [List.length_nil, List.take_zero, List.drop_zero, List.nil_append]
      rw [show jsMapFrom ([] : List (K × V))
            (ts.filter (fun u => u.1 ≠ k)) = jsMapOf (ts.filter (fun u => u.1 ≠ k)) from rfl,
        ih]
      conv_rhs => rw [specDedup]
termination_by l => l.length
decreasing_by
  simp only [List.length_cons]
  exact Nat.lt_succ_of_le (List.length_filter_le _ _)

theorem firstOccsP_congr : ∀ (l : List (K × V)) (s₁ s₂ : List K),
    (∀ x, x ∈ s₁ ↔ x ∈ s₂) → firstOccsP s₁ l = firstOccsP s₂ l
  | [], _, _, _ => rfl
  | e :: ts, s₁, s₂, h => by
      by_cases hm : e.1 ∈ s₁
      · rw [firstOccsP, if_pos hm, firstOccsP, if_pos ((h e.1).mp hm)]
        exact firstOccsP_congr ts s₁ s₂ h
      · rw [firstOccsP, if_neg hm, firstOccsP, if_neg (fun hx => hm ((h e.1).mpr hx))]
        rw [firstOccsP_congr ts (e.1 :: s₁) (e.1 :: s₂) (by intro x; simp [h x])]

theorem firstOccsP_filter : ∀ (l : List (K × V)) (seen : List K) (k : K),
    firstOccsP (k :: seen) l = firstOccsP seen (l.filter (fun e => e.1 ≠ k))
  | [], _, _ => rfl
  | e :: ts, seen, k => by
      by_cases hek : e.1 = k
      · rw [List.filter_cons_of_neg (by simp [hek]), firstOccsP,
          if_pos (by simp [hek]), firstOccsP_filter ts seen k]
      · rw [List.filter_cons_of_pos (by simp [hek])]
        by_cases hes : e.1 ∈ seen
        · rw [firstOccsP, if_pos (by simp [hes]), firstOccsP, if_pos hes,
            firstOccsP_filter ts seen k]
        · rw [firstOccsP, if_neg (by simp [hek, hes]), firstOccsP, if_neg hes,
            firstOccsP_congr ts (e.1 :: k :: seen) (k :: e.1 :: seen) (by intro x; simp; tauto),
            firstOccsP_filter ts (e.1 :: seen) k]

theorem lastVF_filter : ∀ (l : List (K × V)) (x k : K) (d : V), x ≠ k →
    lastVF x d (l.filter (fun e => e.1 ≠ k)) = lastVF x d l
  | [], _, _, _, _ => rfl
  | e :: ts, x, k, d, hxk => by
      by_cases hek : e.1 = k
      · rw [List.filter_cons_of_neg (by simp [hek]), lastVF,
          if_neg (fun hc : e.1 = x => hxk (hc ▸ hek)), lastVF_filter ts x k d hxk]
      · by_cases hex : e.1 = x
        · rw [List.filter_cons_of_pos (by simp [hek]), lastVF, if_pos hex, lastVF,
            if_pos hex, lastVF_filter ts x k e.2 hxk]
        · rw [List.filter_cons_of_pos (by simp [hek]), lastVF, if_neg hex, lastVF,
            if_neg hex, lastVF_filter ts x k d hxk]

theorem firstOccsP_subset : ∀ (l : List (K × V)) (seen : List K) (e : K × V),
    e ∈ firstOccsP seen l → e ∈ l
  | [], _, _, h => by simp [firstOccsP] at h
  | u :: ts, seen, e, h => by
      by_cases hm : u.1 ∈ seen
      · rw [firstOccsP, if_pos hm] at h
        exact List.mem_cons_of_mem u (firstOccsP_subset ts seen e h)
      · rw [firstOccsP, if_neg hm] at h
        rcases List.mem_cons.mp h with rfl | h'
        · exact List.mem_cons_self _ _
        · exact List.mem_cons_of_mem u (firstOccsP_subset ts (u.1 :: seen) e h')

theorem firstOccsP_not_seen : ∀ (l : List (K × V)) (seen : List K) (e : K × V),
    e ∈ firstOccsP seen l → e.1 ∉ seen
  | [], _, _, h => by simp [firstOccsP] at h
  | u :: ts, seen, e, h => by
      by_cases hm : u.1 ∈ seen
      · rw [firstOccsP, if_pos hm] at h
        exact firstOccsP_not_seen ts seen e h
      · rw [firstOccsP, if_neg hm] at h
        rcases List.mem_cons.mp h with rfl | h'
        · exact hm
        · exact fun hc =>
            firstOccsP_not_seen ts (u.1 :: seen) e h' (List.mem_cons_of_mem _ hc)

theorem specDedup_eq_specDedupC : ∀ (l : List (K × V)), specDedup l = specDedupC l
  | [] => by simp [specDedup, specDedupC, firstOccsP]
  | (k, v) :: ts => by
      have ih := specDedup_eq_specDedupC (ts.filter (fun u => u.1 ≠ k))
      conv_lhs => rw [specDedup]
      rw [ih]
      unfold specDedupC
      rw [show firstOccsP [] ((k, v) :: ts) = (k, v) :: firstOccsP [k] ts by
            rw [firstOccsP, if_neg (List.not_mem_nil k)],
        firstOccsP_filter ts [] k, List.map_cons]
      congr 1
      · simp [lastVF]
      · apply List.map_congr_left
        intro e he
        have hef : e ∈ ts.filter (fun u => u.1 ≠ k) := firstOccsP_subset _ _ e he
        have hek : e.1 ≠ k := by simpa using List.of_mem_filter hef
        rw [lastVF_filter ts e.1 k e.2 hek,
          show lastVF e.1 e.2 ((k, v) :: ts) = lastVF e.1 e.2 ts from by
            rw [lastVF, if_neg (fun hc => hek hc.symm)]]
termination_by l => l.length
decreasing_by
  simp only [List.length_cons]
  exact Nat.lt_succ_of_le (List.length_filter_le _ _)

theorem firstOccsP_keys_nodup : ∀ (l : List (K × V)) (seen : List K),
    ((firstOccsP seen l).map Prod.fst).Nodup
  | [], _ => by simp [firstOccsP]
  | e :: ts, seen => by
      by_cases hm : e.1 ∈ seen
      · rw [firstOccsP, if_pos hm]
        exact firstOccsP_keys_nodup ts seen
      · rw [firstOccsP, if_neg hm, List.map_cons]
        refine List.nodup_cons.mpr ⟨?_, firstOccsP_keys_nodup ts (e.1 :: seen)⟩
        intro hc
        obtain ⟨u, hu, hu1⟩ := List.mem_map.mp hc
        exact firstOccsP_not_seen ts (e.1 :: seen) u hu (by simp [hu1])

theorem firstOccsP_keys_complete : ∀ (l : List (K × V)) (seen : List K) (e : K × V),
    e ∈ l → e.1 ∈ seen ∨ e.1 ∈ (firstOccsP seen l).map Prod.fst
  | [], _, _, h => absurd h (List.not_mem_nil _)
  | u :: ts, seen, e, h => by
      by_cases hm : u.1 ∈ seen
      · rw [firstOccsP, if_pos hm]
        rcases List.mem_cons.mp h with rfl | h'
        · exact Or.inl hm
        · exact firstOccsP_keys_complete ts seen e h'
      · rw [firstOccsP, if_neg hm, List.map_cons]
        rcases List.mem_cons.mp h with rfl | h'
        · exact Or.inr (List.mem_cons_self _ _)
        · rcases firstOccsP_keys_complete ts (u.1 :: seen) e h' with hs | hin
          · rcases List.mem_cons.mp hs with heq | hseen
            · exact Or.inr (by simp [heq])
            · exact Or.inl hseen
          · exact Or.inr (List.mem_cons_of_mem _ hin)

end JSMap

/-- Deduplicated values of the merge, exactly as the source builds them:
    Array.from(new Map(allTxs.map(item => [key, item])).values()). -/
def uniqueTxs (txs : List Tx) : List Tx :=
  (jsMapOf (txs.map (fun t => (keyOf t, t)))).map Prod.snd

/-- Stable descending insertion by timestamp: the element is placed after
    every element with a greater or equal timestamp. -/
def insertDesc (t : Tx) : List Tx → List Tx
  | [] => [t]
  | x :: xs => if x.timeStamp ≥ t.timeStamp then x :: insertDesc t xs else t :: x :: xs

/-- The stable descending sort by timeStamp, as performed by
    sort((a, b) => b.timeStamp - a.timeStamp) (Array sort is stable). -/
def sortByTimeDesc (l : List Tx) : List Tx := l.foldl (fun acc t => insertDesc t acc) []

/-- The merge step of fetchTransactions: dedup, sort descending, take 50. -/
def mergeTxs (txs : List Tx) : List Tx := (sortByTimeDesc (uniqueTxs txs)).take 50

/-! ## Transaction history: indexer queries and retry

A raw indexer record; timeStamp is modelled after its parseInt, and
tokenDecimal as an optional field defaulted to 18 by the mapping. -/

structure RawTx where
  hash : String
  sender : String
  receiver : String
  value : String
  timeStamp : Nat
  isError : String
  gasUsed : String
  tokenSymbol : String
  tokenDecimal : Option Nat
deriving DecidableEq

/-- The result field of an indexer response: a record array or a string. -/
inductive ApiResult where
  | records : List RawTx → ApiResult
  | msg : String → ApiResult
deriving DecidableEq

structure ApiResponse where
  status : String
  message : String
  result : ApiResult
deriving DecidableEq

/-- One attempt at the indexer: transport failure, non-ok HTTP response, or
    a decoded JSON body. -/
inductive FetchOutcome where
  | netError : FetchOutcome
  | httpError : FetchOutcome
  | ok : ApiResponse → FetchOutcome
deriving DecidableEq

/-- The default returned after exhausting retries. -/
def emptyFail : ApiResponse := ⟨"0", "", ApiResult.records []⟩

/-- Substring test on code-unit lists. -/
def hasSubList : List Nat → List Nat → Bool
  | [], n => n.isEmpty
  | h :: t, n => n.isPrefixOf (h :: t) || hasSubList t n

/-- ASCII lowercasing of one code unit (toLowerCase restricted to the
    ASCII range, which covers every string the aggregator inspects). -/
def lowerCode (n : Nat) : Nat := if 65 ≤ n ∧ n ≤ 90 then n + 32 else n

/-- Code units of a string, lowercased. -/
def lowerCodes (s : String) : List Nat := (strCodes s).map lowerCode

/-- result.toLowerCase() mentions a rate limit or a busy endpoint. -/
def rateLimitMsg (s : String) : Bool :=
  hasSubList (lowerCodes s) (strCodes ("rate limit"))
  || hasSubList (lowerCodes s) (strCodes ("busy"))

/-- The body of one try iteration of fetchWithRetry: errors are the thrown
    exceptions.  A status-0 No-transactions-found body is rewritten to a
    successful empty result; a status-0 NOTOK body with a rate-limit string
    throws RATE_LIMIT; a status-0 NOTOK body whose result is an array throws
    (result?.toLowerCase is undefined there). -/
def attemptEval : FetchOutcome → Except String ApiResponse
  | .netError => Except.error ("fetch failed")
  | .httpError => Except.error ("HTTP Error")
  | .ok d =>
    if d.status = "0" ∧ d.message = "No transactions found" then
      Except.ok ⟨"1", "", ApiResult.records []⟩
    else if d.status = "0" ∧ d.message = "NOTOK" then
      match d.result with
      | .msg s => if rateLimitMsg s then Except.error ("RATE_LIMIT") else Except.ok d
      | .records _ => Except.error ("TypeError")
    else Except.ok d

/-- The retry loop of fetchWithRetry: i is the attempt index, the second
    argument the remaining attempts (3 initially); on the last attempt a
    failure returns the default empty response instead of rethrowing.
    Also returns the number of attempts performed. -/
def fetchRetryGo (resp : Nat → FetchOutcome) : Nat → Nat → ApiResponse × Nat
  | _, 0 => (emptyFail, 0)
  | i, rem + 1 =>
    match attemptEval (resp i) with
    | .ok d => (d, 1)
    | .error _ =>
      if rem = 0 then (emptyFail, 1)
      else
        let p := fetchRetryGo resp (i + 1) rem
        (p.1, p.2 + 1)

/-- fetchWithRetry with its default of 3 retries. -/
def fetchWithRetry (resp : Nat → FetchOutcome) : ApiResponse := (fetchRetryGo resp 0 3).1

/-- Number of attempts fetchWithRetry performs against resp. -/
def fetchAttempts (resp : Nat → FetchOutcome) : Nat := (fetchRetryGo resp 0 3).2

/-- Mapping of a native-transfer record: the network symbol and 18 decimals
    are stamped on. -/
def mapNative (networkSymbol : String) (r : RawTx) : Tx :=
  ⟨r.hash, r.sender, r.receiver, r.value, r.timeStamp, r.isError, r.gasUsed,
   networkSymbol, 18⟩

/-- Mapping of a token-transfer event: isError is forced to 0 and the
    decimal count defaults to 18. -/
def mapToken (r : RawTx) : Tx :=
  ⟨r.hash, r.sender, r.receiver, r.value, r.timeStamp, "0", r.gasUsed,
   r.tokenSymbol, r.tokenDecimal.getD 18⟩

/-- fetchTransactions over the two indexer endpoints.  hasApi models the
    presence of network.apiBaseUrl.  Each endpoint contributes its mapped
    records only on a status-1 array response; the merge step cannot throw,
    and the per-section try/catch of the source never sees an exception
    because fetchWithRetry returns instead of throwing. -/
def fetchTransactions (hasApi : Bool) (networkSymbol : String)
    (respN respT : Nat → FetchOutcome) : Except String (List Tx) :=
  if ¬hasApi then Except.ok []
  else
    let normalRes := fetchWithRetry respN
    let txs1 := if normalRes.status = "1" then
        (match normalRes.result with
         | .records l => l.map (mapNative networkSymbol)
         | .msg _ => [])
      else []
    let tokenRes := fetchWithRetry respT
    let txs2 := if tokenRes.status = "1" then
        (match tokenRes.result with
         | .records l => l.map mapToken
         | .msg _ => [])
      else []
    Except.ok (mergeTxs (txs1 ++ txs2))

/-! ## Claim C3: the merge, dedup and truncation of fetchTransactions -/

/-- First-occurrence dedup on transaction records: the specification-side
    reading, which keeps the first record of each key. -/
def dedupKeepFirstGo (seen : List String) : List Tx → List Tx
  | [] => []
  | t :: ts => if keyOf t ∈ seen then dedupKeepFirstGo seen ts
               else t :: dedupKeepFirstGo (keyOf t :: seen) ts

/-- The last record of l carrying key k, with default d. -/
def lastTxFor (k : String) : Tx → List Tx → Tx
  | d, [] => d
  | d, t :: ts => if keyOf t = k then lastTxFor k t ts else lastTxFor k d ts

/-- What the Map-based dedup of the source actually computes: for each key,
    the position of its first occurrence carries the record of its last
    occurrence. -/
def specDedupTx (txs : List Tx) : List Tx :=
  (dedupKeepFirstGo [] txs).map (fun t => lastTxFor (keyOf t) t txs)

/-- The merge as the claim words it: dedup keeping the first occurrence,
    then sort descending, then truncate to 50. -/
def claimMergeKeepFirst (txs : List Tx) : List Tx :=
  (sortByTimeDesc (dedupKeepFirstGo [] txs)).take 50

/-- The key-record pairing the source feeds into the Map constructor. -/
def pairTx (t : Tx) : String × Tx := (keyOf t, t)

theorem firstOccsP_map_pairTx : ∀ (ts : List Tx) (seen : List String),
    firstOccsP seen (ts.map pairTx) = (dedupKeepFirstGo seen ts).map pairTx
  | [], _ => rfl
  | t :: ts, seen => by
      simp only [List.map_cons, pairTx, firstOccsP, dedupKeepFirstGo]
      by_cases hm : keyOf t ∈ seen
      · rw [if_pos hm, if_pos hm]
        exact firstOccsP_map_pairTx ts seen
      · rw [if_neg hm, if_neg hm, List.map_cons]
        show (keyOf t, t) :: firstOccsP (keyOf t :: seen) (ts.map pairTx)
          = (keyOf t, t) :: (dedupKeepFirstGo (keyOf t :: seen) ts).map pairTx
        rw [firstOccsP_map_pairTx ts (keyOf t :: seen)]

theorem lastVF_map_pairTx : ∀ (ts : List Tx) (k : String) (d : Tx),
    lastVF k d (ts.map pairTx) = lastTxFor k d ts
  | [], _, _ => rfl
  | t :: ts, k, d => by
      simp only [List.map_cons, pairTx, lastVF, lastTxFor]
      by_cases h : keyOf t = k
      · rw [if_pos h, if_pos h]
        exact lastVF_map_pairTx ts k t
      · rw [if_neg h, if_neg h]
        exact lastVF_map_pairTx ts k d

/-- The Array.from(new Map(...).values()) step equals its closed
    description. -/
theorem uniqueTxs_eq_specDedupTx (txs : List Tx) : uniqueTxs txs = specDedupTx txs := by
  unfold uniqueTxs specDedupTx
  rw [show (txs.map fun t => (keyOf t, t)) = txs.map pairTx from rfl,
    jsMapOf_eq_specDedup, specDedup_eq_specDedupC]
  unfold specDedupC
  rw [firstOccsP_map_pairTx txs [], List.map_map, List.map_map]
  apply List.map_congr_left
  intro t _
  show ((fun e => (e.1, lastVF e.1 e.2 (txs.map pairTx))) (pairTx t)).2
    = lastTxFor (keyOf t) t txs
  simpa [pairTx] using lastVF_map_pairTx txs (keyOf t) t

theorem keyOf_lastTxFor : ∀ (ts : List Tx) (k : String) (d : Tx), keyOf d = k →
    keyOf (lastTxFor k d ts) = k
  | [], _, _, h => h
  | t :: ts, k, d, h => by
      by_cases ht : keyOf t = k
      · rw [lastTxFor, if_pos ht]
        exact keyOf_lastTxFor ts k t ht
      · rw [lastTxFor, if_neg ht]
        exact keyOf_lastTxFor ts k d h

theorem specDedupTx_keys (txs : List Tx) :
    (specDedupTx txs).map keyOf = (dedupKeepFirstGo [] txs).map keyOf := by
  unfold specDedupTx
  rw [List.map_map]
  apply List.map_congr_left
  intro t _
  show keyOf (lastTxFor (keyOf t) t txs) = keyOf t
  exact keyOf_lastTxFor txs (keyOf t) t rfl

theorem dedupKeepFirstGo_keys (ts : List Tx) (seen : List String) :
    (firstOccsP seen (ts.map pairTx)).map Prod.fst = (dedupKeepFirstGo seen ts).map keyOf := by
  rw [firstOccsP_map_pairTx ts seen, List.map_map]
  rfl

/-- No two surviving records share a key. -/
theorem specDedupTx_keys_nodup (txs : List Tx) : ((specDedupTx txs).map keyOf).Nodup := by
  rw [specDedupTx_keys, ← dedupKeepFirstGo_keys]
  exact firstOccsP_keys_nodup (txs.map pairTx) []

/-- Every key present in the input survives into the deduplicated list. -/
theorem specDedupTx_keys_complete (txs : List Tx) (t : Tx) (ht : t ∈ txs) :
    ∃ u ∈ specDedupTx txs, keyOf u = keyOf t := by
  rcases firstOccsP_keys_complete (txs.map pairTx) [] (pairTx t)
      (List.mem_map_of_mem pairTx ht) with hs | hin
  · simp at hs
  · rw [dedupKeepFirstGo_keys txs [], ← specDedupTx_keys] at hin
    obtain ⟨u, hu, hk⟩ := List.mem_map.mp hin
    exact ⟨u, hu, hk⟩

/-- A constant successful indexer response carrying the record list l. -/
def constOk (l : List RawTx) : Nat → FetchOutcome :=
  fun _ => FetchOutcome.ok ⟨"1", "OK", ApiResult.records l⟩

def c3RawA : RawTx := ⟨"0xh1", "0xa", "0xb", "1", 10, "0", "21000", "TKN", some 18⟩

def c3RawB : RawTx := ⟨"0xh1", "0xa", "0xb", "2", 5, "0", "21000", "TKN", some 18⟩

/-- C3, counterexample.  Two token events with the same (hash, symbol) but
    different payloads: the source's Map keeps the LAST record of the key,
    while the claim requires the first; on this input fetchTransactions
    returns the second record where the claim's transform returns the
    first. -/
theorem c3_counterexample :
    fetchTransactions true ("BNB") (constOk []) (constOk [c3RawA, c3RawB])
      = Except.ok [mapToken c3RawB]
    ∧ claimMergeKeepFirst (([] : List RawTx).map (mapNative ("BNB"))
        ++ [c3RawA, c3RawB].map mapToken) = [mapToken c3RawA]
    ∧ mapToken c3RawA ≠ mapToken c3RawB := by
  refine ⟨rfl, rfl, by decide⟩

/-- C3, amended.  The result of fetchTransactions on successfully fetched
    lists is their concatenation deduplicated by the key
    hash + (symbol or native), where the first occurrence of each key
    survives positionally but carries the record of the key's LAST
    occurrence, sorted descending by timestamp and truncated to 50; no two
    surviving records share a key, and every key of the input survives
    (in particular two records sharing a hash but with keys differing in
    symbol both survive). -/
theorem c3_merge_amended (l₁ l₂ : List RawTx) (networkSymbol : String) :
    fetchTransactions true networkSymbol (constOk l₁) (constOk l₂)
      = Except.ok ((sortByTimeDesc (specDedupTx
          (l₁.map (mapNative networkSymbol) ++ l₂.map mapToken))).take 50)
    ∧ ((specDedupTx (l₁.map (mapNative networkSymbol) ++ l₂.map mapToken)).map keyOf).Nodup
    ∧ (∀ t ∈ l₁.map (mapNative networkSymbol) ++ l₂.map mapToken,
        ∃ u ∈ specDedupTx (l₁.map (mapNative networkSymbol) ++ l₂.map mapToken),
          keyOf u = keyOf t) := by
  refine ⟨?_, specDedupTx_keys_nodup _, fun t ht => specDedupTx_keys_complete _ t ht⟩
  have h0 : fetchTransactions true networkSymbol (constOk l₁) (constOk l₂)
      = Except.ok (mergeTxs (l₁.map (mapNative networkSymbol) ++ l₂.map mapToken)) := rfl
  rw [h0]
  unfold mergeTxs
  rw [uniqueTxs_eq_specDedupTx]

/-- C3, witness for the amended theorem at a concrete input. -/
theorem c3_merge_amended_witness :
    (fetchTransactions true ("BNB") (constOk []) (constOk [c3RawA])
      = Except.ok ((sortByTimeDesc (specDedupTx
          (([] : List RawTx).map (mapNative ("BNB")) ++ [c3RawA].map mapToken))).take 50))
    ∧ (mapToken c3RawA ∈ ([] : List RawTx).map (mapNative ("BNB")) ++ [c3RawA].map mapToken
        ∧ ∃ u ∈ specDedupTx (([] : List RawTx).map (mapNative ("BNB"))
            ++ [c3RawA].map mapToken), keyOf u = keyOf (mapToken c3RawA)) :=
  ⟨(c3_merge_amended [] [c3RawA] ("BNB")).1,
   by simp,
   (c3_merge_amended [] [c3RawA] ("BNB")).2.2 (mapToken c3RawA) (by simp)⟩

/-! ## Claim C4: balance refresh (fetchBalances of src/App.tsx)

Registry tokens as the dashboard holds them; an absent isNative is false,
and every token the app handles carries a chain id.  RPC reads are
oracles: the native-balance read and the per-address token-balance read
each either produce a formatted balance string or fail. -/

structure RToken where
  address : String
  symbol : String
  name : String
  decimals : Nat
  balance : String
  isNative : Bool
  chainId : Nat
deriving DecidableEq

/-- getNativeBalance: its own catch turns a failed RPC read into 0.0. -/
def getNativeBalanceM (o : Except Unit String) : String :=
  match o with
  | .ok b => b
  | .error _ => "0.0"

/-- getTokenBalance, balance field: the catch around the (already retried)
    contract reads returns balance 0.0 on failure, never throwing. -/
def getTokenBalanceM (o : String → Except Unit String) (tokenAddress : String) : String :=
  match o tokenAddress with
  | .ok b => b
  | .error _ => "0.0"

/-- The balance value fetchBalances obtains for one token. -/
def balFor (natO : Except Unit String) (tokO : String → Except Unit String)
    (t : RToken) : String :=
  if t.isNative then getNativeBalanceM natO else getTokenBalanceM tokO t.address

/-- findIndex on (address, chainId) followed by the in-place spread update
    of the found entry's balance; no match leaves the list unchanged. -/
def updFirst (addr : String) (cid : Nat) (bal : String) : List RToken → List RToken
  | [] => []
  | u :: us => if u.address = addr ∧ u.chainId = cid then { u with balance := bal } :: us
               else u :: updFirst addr cid bal us

/-- fetchBalances: walk the tokens of the active chain in order, writing
    each obtained balance into the master list.  The loop body cannot throw
    (both balance readers catch internally), so the per-token catch of the
    source never fires and no token aborts the others. -/
def fetchBalancesM (natO : Except Unit String) (tokO : String → Except Unit String)
    (cid : Nat) (tokens : List RToken) : List RToken :=
  (tokens.filter (fun t => t.chainId = cid)).foldl
    (fun acc t => updFirst t.address t.chainId (balFor natO tokO t) acc) tokens

theorem updFirst_map (a : String) (c : Nat) (b : String) (f : RToken → RToken)
    (hf : ∀ u, (f u).address = u.address ∧ (f u).chainId = u.chainId) :
    ∀ (tokens : List RToken), ((tokens.map (fun t => (t.address, t.chainId))).Nodup) →
    updFirst a c b (tokens.map f)
      = tokens.map (fun u =>
          if u.address = a ∧ u.chainId = c then { f u with balance := b } else f u)
  | [], _ => rfl
  | u :: us, hnd => by
      have hx := List.nodup_cons.mp hnd
      by_cases hu : u.address = a ∧ u.chainId = c
      · rw [List.map_cons, updFirst,
          if_pos (by rw [(hf u).1, (hf u).2]; exact hu), List.map_cons, if_pos hu]
        congr 1
        apply List.map_congr_left
        intro x hxm
        have hxk : ¬(x.address = a ∧ x.chainId = c) := by
          intro hc
          apply hx.1
          have heq : (x.address, x.chainId) = (u.address, u.chainId) := by
            rw [hc.1, hc.2, hu.1, hu.2]
          show (u.address, u.chainId) ∈ us.map (fun t => (t.address, t.chainId))
          rw [← heq]
          exact List.mem_map_of_mem _ hxm
        rw [if_neg hxk]
      · rw [List.map_cons, updFirst,
          if_neg (by rw [(hf u).1, (hf u).2]; exact hu), List.map_cons, if_neg hu]
        congr 1
        exact updFirst_map a c b f hf us hx.2

theorem fetchBalances_fold (natO : Except Unit String) (tokO : String → Except Unit String)
    (cid : Nat) :
    ∀ (ts tokens : List RToken) (S : List (String × Nat)),
    (∀ t ∈ ts, t ∈ tokens) →
    ((ts.map (fun t => (t.address, t.chainId))).Nodup) →
    (∀ t ∈ ts, (t.address, t.chainId) ∉ S) →
    ((tokens.map (fun t => (t.address, t.chainId))).Nodup) →
    ts.foldl (fun acc t => updFirst t.address t.chainId (balFor natO tokO t) acc)
        (tokens.map (fun u => if (u.address, u.chainId) ∈ S
          then { u with balance := balFor natO tokO u } else u))
      = tokens.map (fun u =>
          if (u.address, u.chainId) ∈ S ++ ts.map (fun t => (t.address, t.chainId))
          then { u with balance := balFor natO tokO u } else u)
  | [], tokens, S, _, _, _, _ => by simp
  | t :: ts', tokens, S, hsub, hndts, hnotS, hnd => by
      have hxt := List.nodup_cons.mp hndts
      rw [List.foldl_cons,
        updFirst_map t.address t.chainId (balFor natO tokO t) _
          (fun u => by split <;> simp) tokens hnd]
      have hmapeq : tokens.map (fun u =>
            if u.address = t.address ∧ u.chainId = t.chainId
            then { (if (u.address, u.chainId) ∈ S
                    then { u with balance := balFor natO tokO u } else u) with
                    balance := balFor natO tokO t }
            else (if (u.address, u.chainId) ∈ S
                  then { u with balance := balFor natO tokO u } else u))
          = tokens.map (fun u => if (u.address, u.chainId) ∈ S ++ [(t.address, t.chainId)]
              then { u with balance := balFor natO tokO u } else u) := by
        apply List.map_congr_left
        intro u hu
        by_cases hk : u.address = t.address ∧ u.chainId = t.chainId
        · have hut : u = t := by
            refine List.inj_on_of_nodup_map hnd hu (hsub t (by simp)) ?_
            rw [hk.1, hk.2]
          subst hut
          rw [if_pos hk, if_neg (hnotS u (by simp)), if_pos (by simp)]
        · rw [if_neg hk]
          by_cases hS : (u.address, u.chainId) ∈ S
          · rw [if_pos hS, if_pos (List.mem_append.mpr (Or.inl hS))]
          · have hS' : (u.address, u.chainId) ∉ S ++ [(t.address, t.chainId)] := by
              intro hc
              rcases List.mem_append.mp hc with h | h
              · exact hS h
              · simp only [List.mem_singleton, Prod.mk.injEq] at h
                exact hk ⟨h.1, h.2⟩
            rw [if_neg hS, if_neg hS']
      rw [hmapeq,
        fetchBalances_fold natO tokO cid ts' tokens (S ++ [(t.address, t.chainId)])
          (fun x hx => hsub x (by simp [hx]))
          hxt.2
          (fun x hx hc => by
            rcases List.mem_append.mp hc with h | h
            · exact hnotS x (by simp [hx]) h
            · simp only [List.mem_singleton] at h
              apply hxt.1
              show (t.address, t.chainId) ∈ ts'.map (fun t => (t.address, t.chainId))
              rw [← h]
              exact List.mem_map_of_mem _ hx)
          hnd]
      simp only [List.append_assoc, List.singleton_append, List.map_cons]

/-- C4, amended.  When no two tokens share (address, chain id): the refresh
    visits every token of the active chain (none aborts the others) and
    returns the master list where each active-chain token's balance is
    replaced by the value its balance call produced; a token whose call
    failed gets the fallback 0.0 (the pre-refresh value is NOT retained,
    because getTokenBalance/getNativeBalance catch the error and return
    0.0), a token whose call succeeded gets the fetched value, and tokens
    of other chains are untouched. -/
theorem c4_balance_refresh (natO : Except Unit String) (tokO : String → Except Unit String)
    (cid : Nat) (tokens : List RToken)
    (hnd : (tokens.map (fun t => (t.address, t.chainId))).Nodup) :
    fetchBalancesM natO tokO cid tokens
      = tokens.map (fun t => if t.chainId = cid
          then { t with balance := balFor natO tokO t } else t)
    ∧ (∀ t ∈ tokens, t.chainId = cid → t.isNative = false →
        tokO t.address = Except.error () →
        { t with balance := ("0.0" : String) } ∈ fetchBalancesM natO tokO cid tokens)
    ∧ (∀ t ∈ tokens, t.chainId = cid → t.isNative = false →
        ∀ b, tokO t.address = Except.ok b →
        { t with balance := b } ∈ fetchBalancesM natO tokO cid tokens)
    ∧ (∀ t ∈ tokens, t.chainId ≠ cid → t ∈ fetchBalancesM natO tokO cid tokens) := by
  have hbase : tokens.map (fun u => if (u.address, u.chainId) ∈ ([] : List (String × Nat))
      then { u with balance := balFor natO tokO u } else u) = tokens := by
    conv_rhs => rw [← List.map_id tokens]
    apply List.map_congr_left
    intro u _
    simp
  have hfold := fetchBalances_fold natO tokO cid
    (tokens.filter (fun t => t.chainId = cid)) tokens []
    (fun t ht => List.mem_of_mem_filter ht)
    (List.Nodup.sublist (List.Sublist.map _ (List.filter_sublist tokens)) hnd)
    (fun t _ => List.not_mem_nil _)
    hnd
  rw [hbase] at hfold
  have h1 : fetchBalancesM natO tokO cid tokens
      = tokens.map (fun t => if t.chainId = cid
          then { t with balance := balFor natO tokO t } else t) := by
    unfold fetchBalancesM
    rw [hfold]
    simp only [List.nil_append]
    apply List.map_congr_left
    intro u hu
    by_cases hc : u.chainId = cid
    · rw [if_pos (List.mem_map_of_mem _ (List.mem_filter.mpr ⟨hu, by simp [hc]⟩)),
        if_pos hc]
    · have hnm : (u.address, u.chainId)
          ∉ (tokens.filter (fun t => t.chainId = cid)).map
              (fun t => (t.address, t.chainId)) := by
        intro hm
        obtain ⟨w, hw, hwk⟩ := List.mem_map.mp hm
        have hw' := List.mem_filter.mp hw
        have hwu : w = u := List.inj_on_of_nodup_map hnd hw'.1 hu hwk
        apply hc
        rw [← hwu]
        simpa using hw'.2
      rw [if_neg hnm, if_neg hc]
  refine ⟨h1, ?_, ?_, ?_⟩
  · intro t ht hc hn hf
    rw [h1]
    have hv : { t with balance := ("0.0" : String) }
        = if t.chainId = cid then { t with balance := balFor natO tokO t } else t := by
      rw [if_pos hc]
      simp [balFor, hn, getTokenBalanceM, hf]
    rw [hv]
    exact List.mem_map_of_mem _ ht
  · intro t ht hc hn b hf
    rw [h1]
    have hv : { t with balance := b }
        = if t.chainId = cid then { t with balance := balFor natO tokO t } else t := by
      rw [if_pos hc]
      simp [balFor, hn, getTokenBalanceM, hf]
    rw [hv]
    exact List.mem_map_of_mem _ ht
  · intro t ht hc
    rw [h1]
    have hv : t = if t.chainId = cid
        then { t with balance := balFor natO tokO t } else t := by
      rw [if_neg hc]
    rw [hv]
    exact List.mem_map_of_mem _ ht

def c4TokA : RToken := ⟨"0xaa", "AAA", "Token A", 18, "1", false, 56⟩

def c4TokB : RToken := ⟨"0xbb", "BBB", "Token B", 18, "2", false, 56⟩

def c4TokC : RToken := ⟨"0xcc", "CCC", "Token C", 18, "3", false, 56⟩

/-- The token-balance oracle of scenario C: the second token's RPC call
    fails, the other two succeed. -/
def c4TokO : String → Except Unit String := fun a =>
  if a = "0xbb" then Except.error ()
  else if a = "0xaa" then Except.ok ("10") else Except.ok ("30")

/-- C4, counterexample.  Scenario C: of three tokens the second one's call
    throws; the refresh does continue, but the failing token's balance is
    overwritten with the fallback 0.0 instead of keeping its pre-refresh
    value 2. -/
theorem c4_counterexample :
    fetchBalancesM (Except.ok ("99")) c4TokO 56 [c4TokA, c4TokB, c4TokC]
      = [{ c4TokA with balance := "10" }, { c4TokB with balance := "0.0" },
         { c4TokC with balance := "30" }]
    ∧ ("0.0" : String) ≠ c4TokB.balance := by
  refine ⟨rfl, by decide⟩

/-- C4, witness for the amended theorem on the scenario-C token set. -/
theorem c4_witness :
    (([c4TokA, c4TokB, c4TokC].map (fun t => (t.address, t.chainId))).Nodup)
    ∧ fetchBalancesM (Except.ok ("99")) c4TokO 56 [c4TokA, c4TokB, c4TokC]
      = [c4TokA, c4TokB, c4TokC].map (fun t => if t.chainId = 56
          then { t with balance := balFor (Except.ok ("99")) c4TokO t } else t) :=
  ⟨by decide,
   (c4_balance_refresh (Except.ok ("99")) c4TokO 56 [c4TokA, c4TokB, c4TokC] (by decide)).1⟩

/-! ## Claim C8: retry discipline of the history fetch -/

theorem fetchRetryGo_attempts_le (resp : Nat → FetchOutcome) :
    ∀ (rem i : Nat), (fetchRetryGo resp i rem).2 ≤ rem
  | 0, _ => by simp [fetchRetryGo]
  | rem + 1, i => by
      have ih := fetchRetryGo_attempts_le resp rem (i + 1)
      rcases h : attemptEval (resp i) with e | d <;> simp [fetchRetryGo, h]
      split
      · simp
      · simp only [Nat.add_le_add_iff_right]
        omega

/-- C8.  For every pair of indexer behaviors: a query performs at most 3
    attempts; if all three attempts fail the query yields the default
    status-0 empty response (hence an empty contribution, not an error);
    if the first attempts fail (for instance rate-limited) and attempt j
    of the first three succeeds, the query returns exactly that successful
    response; and fetchTransactions always returns a list, never an error. -/
theorem c8_retry_best_effort (respN respT : Nat → FetchOutcome)
    (hasApi : Bool) (networkSymbol : String) :
    (fetchAttempts respN ≤ 3)
    ∧ ((∀ i < 3, ∃ e, attemptEval (respN i) = Except.error e) →
        fetchWithRetry respN = emptyFail)
    ∧ (∀ d e₀ e₁,
        (attemptEval (respN 0) = Except.error e₀ →
         attemptEval (respN 1) = Except.error e₁ →
         attemptEval (respN 2) = Except.ok d →
         fetchWithRetry respN = d)
        ∧ (attemptEval (respN 0) = Except.error e₀ →
           attemptEval (respN 1) = Except.ok d →
           fetchWithRetry respN = d)
        ∧ (attemptEval (respN 0) = Except.ok d →
           fetchWithRetry respN = d))
    ∧ (∃ l, fetchTransactions hasApi networkSymbol respN respT = Except.ok l) := by
  refine ⟨?_, ?_, ?_, ?_⟩
  · exact fetchRetryGo_attempts_le respN 3 0
  · intro h
    obtain ⟨e0, h0⟩ := h 0 (by omega)
    obtain ⟨e1, h1⟩ := h 1 (by omega)
    obtain ⟨e2, h2⟩ := h 2 (by omega)
    simp [fetchWithRetry, fetchRetryGo, h0, h1, h2]
  · intro d e₀ e₁
    refine ⟨?_, ?_, ?_⟩
    · intro h0 h1 h2
      simp [fetchWithRetry, fetchRetryGo, h0, h1, h2]
    · intro h0 h1
      simp [fetchWithRetry, fetchRetryGo, h0, h1]
    · intro h0
      simp [fetchWithRetry, fetchRetryGo, h0]
  · unfold fetchTransactions
    by_cases h : hasApi <;> simp [h]

/-- C8, witness: native endpoint rate-limited twice then successful;
    fetchTransactions returns exactly the mapped records of the third
    response. -/
def c8Raw : RawTx := ⟨"0xaaa", "0xs", "0xr", "5", 100, "0", "21000", "", some 18⟩

def c8Good : ApiResponse := ⟨"1", "OK", ApiResult.records [c8Raw]⟩

def c8RateLimited : ApiResponse := ⟨"0", "NOTOK", ApiResult.msg ("Max rate limit reached")⟩

def c8RespN : Nat → FetchOutcome := fun i =>
  if i < 2 then FetchOutcome.ok c8RateLimited else FetchOutcome.ok c8Good

def c8RespT : Nat → FetchOutcome := fun _ => FetchOutcome.ok ⟨"1", "OK", ApiResult.records []⟩

theorem c8_witness :
    (fetchAttempts c8RespN ≤ 3 ∧ fetchWithRetry c8RespN = c8Good)
    ∧ fetchTransactions true ("BNB") c8RespN c8RespT
        = Except.ok [mapNative ("BNB") c8Raw] := by
  have h := c8_retry_best_effort c8RespN c8RespT true ("BNB")
  refine ⟨⟨h.1, ?_⟩, ?_⟩
  · exact ((h.2.2.1 c8Good ("RATE_LIMIT") ("RATE_LIMIT")).1 (by rfl) (by rfl) (by rfl))
  · rfl

/-! ## Claim C5: token import flow (handleCheckToken / handleConfirmImportToken)

Metadata as fetchTokenInfo reports it on success; the preview token built
from it.  The RToken model carries no logoUrl (set to the empty string by
the source and irrelevant to identity); the created preview has no
isNative property, modelled as false. -/

structure TokenInfo where
  name : String
  symbol : String
  decimals : Nat
deriving DecidableEq

/-- Hex digit (either case). -/
def isHexDigit (c : Char) : Bool :=
  decide ((48 ≤ c.toNat ∧ c.toNat ≤ 57) ∨ (97 ≤ c.toNat ∧ c.toNat ≤ 102)
    ∨ (65 ≤ c.toNat ∧ c.toNat ≤ 70))

/-- Model of ethers.isAddress for the inputs used here: 0x plus 40 hex
    digits.  The checksum validation ethers applies to mixed-case inputs is
    not modelled; the concrete addresses below are all-lowercase, which
    ethers accepts unconditionally. -/
def isAddressM (s : String) : Bool :=
  match s.toList with
  | '0' :: 'x' :: rest => rest.length == 40 && rest.all isHexDigit
  | _ => false

/-- handleCheckToken of src/App.tsx: validate the address shape, fetch the
    metadata, and on success set the import preview.  It performs no
    already-tracked check against the current token set (the single-chain
    predecessor rejected with Token already added; the multi-chain rewrite
    dropped that check). -/
def handleCheckToken (importTokenAddress : String) (activeChainId : Nat)
    (info : Except Unit TokenInfo) : Option RToken :=
  if ¬ isAddressM importTokenAddress then none
  else
    match info with
    | .error _ => none
    | .ok i =>
        some { address := importTokenAddress,
               symbol := if i.symbol = "" then ("UNK") else i.symbol,
               name := if i.name = "" then ("Unknown Token") else i.name,
               decimals := if i.decimals = 0 then 18 else i.decimals,
               balance := "0",
               isNative := false,
               chainId := activeChainId }

/-- handleConfirmImportToken: appends the preview unconditionally. -/
def handleConfirmImportToken (tokens : List RToken) (preview : Option RToken) :
    List RToken :=
  match preview with
  | none => tokens
  | some p => tokens ++ [p]

/-- Check followed by confirm. -/
def importTokenFlow (tokens : List RToken) (addr : String) (cid : Nat)
    (info : Except Unit TokenInfo) : List RToken :=
  handleConfirmImportToken tokens (handleCheckToken addr cid info)

/-- The default 3TWENTY token of constants.ts (chain 56), as an RToken. -/
def tok3twenty : RToken :=
  ⟨"0x2ffbdfa8638422bf3a5134434387b8fb5962da2c", "3TWENTY", "3Twenty Coin",
   18, "0", false, 56⟩

def info3twenty : TokenInfo := ⟨"3Twenty Coin", "3TWENTY", 18⟩

/-- C5.  Importing a token whose (address, chain id) is already tracked is
    NOT rejected: starting from the default set containing 3TWENTY on chain
    56 and importing the same contract on the same chain appends a
    duplicate, so the resulting set has two tokens sharing
    (address, chain id). -/
theorem c5_duplicate_import :
    importTokenFlow [tok3twenty] ("0x2ffbdfa8638422bf3a5134434387b8fb5962da2c") 56
        (Except.ok info3twenty)
      = [tok3twenty, tok3twenty]
    ∧ ¬ ((importTokenFlow [tok3twenty] ("0x2ffbdfa8638422bf3a5134434387b8fb5962da2c") 56
          (Except.ok info3twenty)).map (fun t => (t.address, t.chainId))).Nodup := by
  refine ⟨rfl, by decide⟩

/-! ## Claims C6, C7, C9: the swap pipeline -/

/-- A decimal amount string: value units / 10 ^ decs.  ethers formatUnits
    produces this canonically (its trailing-zero trimming yields a
    parse-equivalent string). -/
structure DecAmount where
  units : Nat
  decs : Nat
deriving DecidableEq

/-- ethers.parseUnits against d decimals: fails (throws) when the string
    carries more fractional digits than d. -/
def parseUnitsM (a : DecAmount) (d : Nat) : Option Nat :=
  if a.decs ≤ d then some (a.units * 10 ^ (d - a.decs)) else none

/-- ethers.formatUnits of an integer amount. -/
def formatUnitsM (wei d : Nat) : DecAmount := ⟨wei, d⟩

def digitsToNat (ds : List Char) : Nat := ds.foldl (fun n c => n * 10 + (c.toNat - 48)) 0

def allDigits (ds : List Char) : Bool := ds.all (fun c => decide (48 ≤ c.toNat ∧ c.toNat ≤ 57))

/-- Parsing of a user-supplied decimal amount string into a DecAmount;
    none models ethers throwing on a malformed number. -/
def parseDecAmount (s : String) : Option DecAmount :=
  match (s.toList).splitOn '.' with
  | [intPart] =>
      if intPart ≠ [] ∧ allDigits intPart then some ⟨digitsToNat intPart, 0⟩ else none
  | [intPart, fracPart] =>
      if intPart ≠ [] ∧ fracPart ≠ [] ∧ allDigits intPart ∧ allDigits fracPart
      then some ⟨digitsToNat intPart * 10 ^ fracPart.length + digitsToNat fracPart,
                 fracPart.length⟩
      else none
  | _ => none

/-- Trailing zeros stripped (right side). -/
def trimZeros (l : List Char) : List Char := (l.reverse.dropWhile (fun c => c = '0')).reverse

/-- Left zero-padding to n digits. -/
def padZeros (n : Nat) (l : List Char) : List Char := List.replicate (n - l.length) '0' ++ l

/-- ethers.formatUnits rendered as a string (always carries a decimal
    point, as in 0.0 and 1.5). -/
def renderUnits (wei d : Nat) : String :=
  let ip := Nat.toDigits 10 (wei / 10 ^ d)
  let fr := trimZeros (padZeros d (Nat.toDigits 10 (wei % 10 ^ d)))
  String.mk (ip ++ '.' :: (if fr = [] then ['0'] else fr))

/-- getSwapQuote: the zero/no-router guard returns the empty quote before
    any chain access; every failure of the body (parse, too many decimals,
    the router read throwing) is caught and also yields the empty quote;
    an empty amounts array yields the string 0, otherwise the last amount
    is formatted against the output token's decimals. -/
def getSwapQuoteM (amountIn : String) (routerAddress : String) (dIn dOut : Nat)
    (chain : Except Unit (List Nat)) : String :=
  if amountIn = "" ∨ amountIn = "0" ∨ routerAddress = "" then ""
  else
    match parseDecAmount amountIn with
    | none => ""
    | some a =>
      match parseUnitsM a dIn with
      | none => ""
      | some _ =>
        match chain with
        | .error _ => ""
        | .ok amounts =>
          match amounts.getLast? with
          | none => "0"
          | some amountOut => renderUnits amountOut dOut

inductive SwapEntry where
  | ethForTokens
  | tokensForEth
  | tokensForTokens
deriving DecidableEq

/-- The transaction executeSwap submits to the router. -/
structure SwapCall where
  entry : SwapEntry
  amountInWei : Nat
  minOutWei : Nat
  deadline : Nat
deriving DecidableEq

/-- executeSwap: integer encodings of both amounts, minimum output as
    minWeiRaw * 98 / 100 in BigInt arithmetic (the fixed 2% slippage), a
    deadline of now + 600 seconds, and the entry point keyed on which side
    is the native asset. -/
def executeSwapM (amountIn amountOutMin : DecAmount) (dIn dOut : Nat)
    (tokenInNative tokenOutNative : Bool) (now : Nat) : Option SwapCall := do
  let amountInWei ← parseUnitsM amountIn dIn
  let minWeiRaw ← parseUnitsM amountOutMin dOut
  let minWei := minWeiRaw * 98 / 100
  pure { entry := if tokenInNative then SwapEntry.ethForTokens
           else if tokenOutNative then SwapEntry.tokensForEth
           else SwapEntry.tokensForTokens,
         amountInWei := amountInWei, minOutWei := minWei, deadline := now + 600 }

/-- C6.  For a quoted output of q integer units of the output token (the
    string handleSwapExecute passes is formatUnits of the quote), the
    minimum-acceptable-output submitted to the router is q * 98 / 100 in
    truncating integer arithmetic, which equals the floor of 98% of q. -/
theorem c6_min_output (q dIn dOut : Nat) (amountIn : DecAmount)
    (natIn natOut : Bool) (now : Nat) (hin : amountIn.decs ≤ dIn) :
    ∃ call, executeSwapM amountIn (formatUnitsM q dOut) dIn dOut natIn natOut now = some call
      ∧ call.minOutWei = q * 98 / 100
      ∧ call.minOutWei = Nat.floor (((q * 98 : Nat) : ℚ) / (100 : ℚ)) := by
  have hfloor : Nat.floor (((q * 98 : Nat) : ℚ) / (100 : ℚ)) = q * 98 / 100 := by
    rw [show (100 : ℚ) = ((100 : Nat) : ℚ) by norm_num]
    have h1 := Nat.floor_div_nat (α := ℚ) ((q * 98 : Nat) : ℚ) 100
    rw [Nat.floor_natCast] at h1
    exact h1
  have hexec : executeSwapM amountIn (formatUnitsM q dOut) dIn dOut natIn natOut now
      = some { entry := if natIn then SwapEntry.ethForTokens
                 else if natOut then SwapEntry.tokensForEth else SwapEntry.tokensForTokens,
               amountInWei := amountIn.units * 10 ^ (dIn - amountIn.decs),
               minOutWei := q * 98 / 100,
               deadline := now + 600 } := by
    unfold executeSwapM parseUnitsM formatUnitsM
    rw [if_pos hin, if_pos (le_refl dOut), Nat.sub_self, pow_zero, Nat.mul_one]
    rfl
  exact ⟨_, hexec, rfl, hfloor.symm⟩

/-- C6, witness at a concrete quote. -/
theorem c6_witness :
    (⟨5, 2⟩ : DecAmount).decs ≤ 18
    ∧ ∃ call, executeSwapM ⟨5, 2⟩ (formatUnitsM 12345 18) 18 18 false false 1000 = some call
        ∧ call.minOutWei = 12345 * 98 / 100
        ∧ call.minOutWei = Nat.floor (((12345 * 98 : Nat) : ℚ) / (100 : ℚ)) :=
  ⟨by decide, c6_min_output 12345 18 18 ⟨5, 2⟩ false false 1000 (by decide)⟩

/-- C7.  A zero amount (the string 0 or the empty input) or a missing
    router address makes getSwapQuote return the empty quote, for every
    chain behavior including a throwing one; nothing is raised (the
    function is total, the guard returns before any chain access, and the
    body's failures are caught into the empty quote). -/
theorem c7_quote_guard (amountIn routerAddress : String) (dIn dOut : Nat)
    (chain : Except Unit (List Nat))
    (h : amountIn = "" ∨ amountIn = "0" ∨ routerAddress = "") :
    getSwapQuoteM amountIn routerAddress dIn dOut chain = "" := by
  unfold getSwapQuoteM
  rw [if_pos h]

/-- C7, witness: scenario B, amount 0 with a throwing chain. -/
theorem c7_witness :
    (("0" : String) = "" ∨ ("0" : String) = "0" ∨ ("0xrouter" : String) = "")
    ∧ getSwapQuoteM ("0") ("0xrouter") 18 18 (Except.error ()) = "" :=
  ⟨Or.inr (Or.inl rfl),
   c7_quote_guard ("0") ("0xrouter") 18 18 (Except.error ()) (Or.inr (Or.inl rfl))⟩

/-- checkAllowance: the router's current approved spend compared against
    the integer-encoded amount; a parse failure propagates (no catch in
    checkAllowance itself). -/
def checkAllowanceM (allowance : Nat) (amount : String) (decimals : Nat) : Option Bool :=
  ((parseDecAmount amount).bind (fun a => parseUnitsM a decimals)).map
    (fun amountWei => decide (amountWei ≤ allowance))

/-- The allowance branch of the swap-quote effect in src/App.tsx: a native
    input token sets needsApproval to false without calling checkAllowance
    (the chain oracle is never consulted); otherwise needsApproval is the
    negation of checkAllowance. -/
def swapNeedsApprovalM (tokenInNative : Bool) (chainAllowance : Unit → Nat)
    (amount : String) (decimals : Nat) : Option Bool :=
  if tokenInNative then some false
  else (checkAllowanceM (chainAllowance ()) amount decimals).map (fun b => !b)

/-- C9.  checkAllowance returns true exactly when the approved spend is at
    least the integer-encoded amount; for a native input token the combined
    check short-circuits (needsApproval false, i.e. allowance sufficient)
    identically for every chain oracle, which is therefore never consulted;
    for a non-native token it is exactly the negated checkAllowance. -/
theorem c9_allowance (allowance : Nat) (amount : String) (decimals : Nat) (w : Nat)
    (hparse : (parseDecAmount amount).bind (fun a => parseUnitsM a decimals) = some w) :
    (checkAllowanceM allowance amount decimals = some true ↔ w ≤ allowance)
    ∧ (∀ o₁ o₂ : Unit → Nat,
        swapNeedsApprovalM true o₁ amount decimals = some false
        ∧ swapNeedsApprovalM true o₁ amount decimals = swapNeedsApprovalM true o₂ amount decimals)
    ∧ (∀ o : Unit → Nat, swapNeedsApprovalM false o amount decimals
        = (checkAllowanceM (o ()) amount decimals).map (fun b => !b)) := by
  refine ⟨?_, fun o₁ o₂ => ⟨rfl, rfl⟩, fun o => rfl⟩
  unfold checkAllowanceM
  rw [hparse]
  simp

/-- C9, witness: 1.5 of a 2-decimal token is 150 integer units. -/
theorem c9_witness :
    ((parseDecAmount ("1.5")).bind (fun a => parseUnitsM a 2) = some 150)
    ∧ ((checkAllowanceM 200 ("1.5") 2 = some true ↔ 150 ≤ 200)
      ∧ (∀ o₁ o₂ : Unit → Nat,
          swapNeedsApprovalM true o₁ ("1.5") 2 = some false
          ∧ swapNeedsApprovalM true o₁ ("1.5") 2 = swapNeedsApprovalM true o₂ ("1.5") 2)
      ∧ (∀ o : Unit → Nat, swapNeedsApprovalM false o ("1.5") 2
          = (checkAllowanceM (o ()) ("1.5") 2).map (fun b => !b))) :=
  ⟨rfl, c9_allowance 200 ("1.5") 2 150 rfl⟩

end ThreeTwenty
